import Mathlib

/-!
# Verification of the occasion-resolution core of `daily_readings_bot`

Shallow embedding of `src/bot.py`.  Strings are modelled as `List Char`
(Python `str` over its code points; the character classes `\w`, `\d`, `\s`
and the case folding of `re.IGNORECASE` / `str.lower` are modelled at the
ASCII level, which covers all characters the program's regexes distinguish).
Each definition is translated from the named source function; regular
expressions are translated into explicit, executable scanners whose
behaviour on the relevant pattern coincides with Python `re` semantics
(all the patterns involved are deterministic after accounting for
greediness, as noted at each definition).
-/

namespace DailyReadingsBot

/-- Shorthand: the code points of a string literal. -/
def str (s : String) : List Char := s.data

/-- Python regex `\d` (ASCII): a decimal digit. -/
def digitB (c : Char) : Bool := 48 ≤ c.toNat && c.toNat ≤ 57

/-- Python regex `\w` (ASCII): letter, digit or underscore. -/
def isWordChar (c : Char) : Bool :=
  (48 ≤ c.toNat && c.toNat ≤ 57) || (65 ≤ c.toNat && c.toNat ≤ 90) ||
    (97 ≤ c.toNat && c.toNat ≤ 122) || c == '_'

/-- Python regex `\s` (ASCII): space, tab, newline, carriage return,
vertical tab, form feed. -/
def pyWs (c : Char) : Bool :=
  c == ' ' || c == '\t' || c == '\n' || c == '\r' ||
    c.toNat == 11 || c.toNat == 12

/-- `Char.toLower`, characterised arithmetically on code points. -/
theorem toLower_toNat (c : Char) :
    c.toLower.toNat = if 65 ≤ c.toNat ∧ c.toNat ≤ 90 then c.toNat + 32 else c.toNat := by
  unfold Char.toLower
  split
  · next h =>
    rw [if_pos (by omega)]
    have hv : (c.toNat + 32).isValidChar := Or.inl (by omega)
    rw [Char.ofNat, dif_pos hv]
    simp [Char.ofNatAux, Char.toNat, UInt32.toNat, BitVec.toNat_ofNatLt]
  · next h =>
    rw [if_neg (by omega)]

/-- Code points determine characters. -/
theorem char_toNat_inj {a b : Char} (h : a.toNat = b.toNat) : a = b := by
  have h2 : Char.ofNat a.toNat = Char.ofNat b.toNat := by rw [h]
  simpa using h2

/-- Lowercasing is idempotent. -/
theorem toLower_toLower (c : Char) : c.toLower.toLower = c.toLower := by
  apply char_toNat_inj
  rw [toLower_toNat c.toLower]
  have hx := toLower_toNat c
  rw [if_neg]
  by_cases h : 65 ≤ c.toNat ∧ c.toNat ≤ 90
  · rw [if_pos h] at hx; omega
  · rw [if_neg h] at hx; omega

/-- Case-insensitive equality of character lists (`re.IGNORECASE` literal
comparison, modelled by lower-casing both sides). -/
def ciEqList : List Char → List Char → Bool
  | [], [] => true
  | a :: as, b :: bs => (a.toLower == b.toLower) && ciEqList as bs
  | _, _ => false

/-- Case-insensitive prefix test. -/
def ciPrefixB : List Char → List Char → Bool
  | [], _ => true
  | _ :: _, [] => false
  | a :: as, b :: bs => (a.toLower == b.toLower) && ciPrefixB as bs

/-- Python `str.strip()`: drop whitespace from both ends. -/
def pyStrip (l : List Char) : List Char :=
  ((l.dropWhile pyWs).reverse.dropWhile pyWs).reverse

/-- `re.sub(r"\s+", " ", s)`: every maximal whitespace run becomes one
space.  The flag records whether the previous character was whitespace. -/
def collapseWsAux : Bool → List Char → List Char
  | _, [] => []
  | inWs, c :: cs =>
    if pyWs c then
      if inWs then collapseWsAux true cs else ' ' :: collapseWsAux true cs
    else c :: collapseWsAux false cs

def collapseWs (l : List Char) : List Char := collapseWsAux false l

/-- `re.match(r"\d", s)`: the string begins with a digit. -/
def startsWithDigit : List Char → Bool
  | [] => false
  | c :: _ => digitB c

/-- `re.fullmatch(r"\d+\w*\s+reading", s, re.IGNORECASE)` (bot.py:246).
`\d+\w*` jointly match exactly a maximal word-character run whose first
character is a digit (backtracking cannot help since `\w` and `\s` are
disjoint), then `\s+`, then the literal `reading` up to the end. -/
def isBareLabel (l : List Char) : Bool :=
  match l with
  | [] => false
  | c :: _ =>
    digitB c &&
      (let w := l.takeWhile isWordChar
       let r1 := l.drop w.length
       let s := r1.takeWhile pyWs
       !s.isEmpty && ciEqList (r1.drop s.length) (str "reading"))

/-- One alternative of the title-prefix regex: if `alt` is a
case-insensitive prefix followed by at least one whitespace character,
return the remainder after the whitespace run. -/
def stripAfterTitle (alt : List Char) (l : List Char) : Option (List Char) :=
  if ciPrefixB alt l then
    let r := l.drop alt.length
    let s := r.takeWhile pyWs
    if s.isEmpty then none else some (r.drop s.length)
  else none

/-- Try regex alternatives left to right, as `re` does. -/
def tryAlts : List (List Char) → List Char → List Char
  | [], l => l
  | a :: as, l =>
    match stripAfterTitle a l with
    | some r => r
    | none => tryAlts as l

/-- `re.sub(r"^(St\.?|Ven\.?|Holy|The)\s+", "", s, flags=re.IGNORECASE)`
(bot.py:256/280).  The greedy `\.?` makes `St.` tried before `St`, and
`Ven.` before `Ven`. -/
def stripTitlePrefix (l : List Char) : List Char :=
  tryAlts [str "St.", str "St", str "Ven.", str "Ven", str "Holy", str "The"] l

/-- Is the character at index `i` a word character (out of range counts
as non-word)?  Used for `\b`. -/
def wordAt (l : List Char) (i : Nat) : Bool :=
  match l.get? i with
  | some c => isWordChar c
  | none => false

/-- Regex `\b` at position `i`: word-ness changes between `i-1` and `i`. -/
def wordBoundary (l : List Char) (i : Nat) : Bool :=
  (match i with
   | 0 => false
   | j + 1 => wordAt l j) != wordAt l i

/-- The pattern `\b<key>\b` (key escaped, `re.IGNORECASE`) matches at
position `i` of `l`. -/
def wholeWordAt (key l : List Char) (i : Nat) : Bool :=
  ciEqList key ((l.drop i).take key.length) && wordBoundary l i &&
    wordBoundary l (i + key.length)

/-- `re.search` of `\b<key>\b` over `l`: some position matches. -/
def hasWholeWord (key l : List Char) : Bool :=
  (List.range (l.length + 1)).any (wholeWordAt key l)

/-- `_search_commemorations` (bot.py:208-219): first entry containing
`key` as a whole word, case-insensitively; `None` when the key or the
list is empty. -/
def search_commemorations (key : List Char) (commemorations : List (List Char)) :
    Option (List Char) :=
  if key.isEmpty || commemorations.isEmpty then none
  else commemorations.find? (hasWholeWord key)

/-- `re.sub(r"^The\s+", "the ", m)` (bot.py:260/283).  No `re.IGNORECASE`
flag: the prefix `The` is matched case-sensitively. -/
def subThe (m : List Char) : List Char :=
  if (str "The").isPrefixOf m then
    let r := m.drop 3
    let s := r.takeWhile pyWs
    if s.isEmpty then m else str "the " ++ r.drop s.length
  else m

/-- `re.match(r"^Saint\b", m, re.IGNORECASE)` (bot.py:263/284). -/
def startsWithSaintWord (m : List Char) : Bool :=
  ciPrefixB (str "Saint") m && wordBoundary m 5

/-- The shared "the "-prefix transform applied to a matched commemoration
(bot.py:259-265 and 282-286): rewrite a leading `The ` to `the `, then
prepend `the ` unless the string already starts with `the ` or starts
with the word `Saint`. -/
def theTransform (m : List Char) : List Char :=
  if (str "the ").isPrefixOf (subThe m) || startsWithSaintWord (subThe m) then subThe m
  else str "the " ++ subThe m

/-- `re.sub(r"^Composite \d+\s*-\s*", "", ref, flags=re.IGNORECASE)`
(bot.py:64).  The anchored pattern can match at most once; each piece is
forced (no productive backtracking since `\d`, `\s` and `-` are
disjoint). -/
def stripComposite (l : List Char) : List Char :=
  if ciPrefixB (str "Composite ") l then
    let r := l.drop 10
    let d := r.takeWhile digitB
    if d.isEmpty then l
    else
      match (r.drop d.length).dropWhile pyWs with
      | '-' :: r4 => r4.dropWhile pyWs
      | _ => l
  else l

/-- Regex `[^\w-]` complement: character kept by `_norm`'s filter. -/
def wordOrHyphen (c : Char) : Bool := isWordChar c || c == '-'

/-- `_norm` (bot.py:58-65): strip the composite prefix, delete every
character that is not a word character or hyphen, lower-case. -/
def norm (ref : List Char) : List Char :=
  ((stripComposite ref).filter wordOrHyphen).map Char.toLower

/-- `_norm` applied to an optional value: Python `re.sub` raises
`TypeError` when handed `None`, modelled as `Except.error ()`. -/
def normOpt : Option (List Char) → Except Unit (List Char)
  | none => Except.error ()
  | some r => Except.ok (norm r)

/-- One record of the orthocal index.  `build_occasion` reads only the
`description` field of the stored reading dict
(`entry.get("description", "")`, bot.py:273). -/
structure OrthocalReading where
  description : List Char
deriving DecidableEq

/-- Python dict lookup `orthocal_index.get(key)`, the index modelled as
an association list with unique keys. -/
def dictGet (k : List Char) : List (List Char × OrthocalReading) → Option OrthocalReading
  | [] => none
  | (k', v) :: rest => if k' == k then some v else dictGet k rest

/-- bot.py:242-243: collapse whitespace runs and trim, but only when the
abbreviation is truthy (non-empty). -/
def wsNormalize (a : List Char) : List Char :=
  if a.isEmpty then a else pyStrip (collapseWs a)

/-- bot.py:242-247: whitespace normalization followed by the
bare-positional-label check (`"1st reading"` and the like become empty). -/
def preprocessAbbrev (a : List Char) : List Char :=
  if !(wsNormalize a).isEmpty && isBareLabel (wsNormalize a) then [] else wsNormalize a

/-- The tuple test `occasion_abbrev.lower() in ("saint", "the", "")`
(bot.py:254, negated there). -/
def genericToken (l : List Char) : Bool :=
  l == str "saint" || l == str "the" || l == []

/-- bot.py:269-273: the alternate description for this reading — look the
normalized reference up in the orthocal index and take the trimmed
`description`; empty when the reference is falsy or nothing is found. -/
def orthocalDesc (oca_ref : List Char) (idx : List (List Char × OrthocalReading)) :
    List Char :=
  if oca_ref.isEmpty then []
  else
    match dictGet (norm oca_ref) idx with
    | some entry => pyStrip entry.description
    | none => []

/-- `re.match(r"(\w+) of the (\d+\w+) week after (.+)", title, re.IGNORECASE)`
(bot.py:292), returning the three groups.  Each `\w+`/`\d+\w+` group is a
maximal word run (no productive backtracking: word characters cannot match
the following literal space); `\d+\w+` accepts a word run iff it starts
with a digit and has length at least two; `.` does not match a newline, so
the final group is the remainder up to a newline and must be non-empty. -/
def dayTitleMatch (title : List Char) : Option (List Char × List Char × List Char) :=
  let w := title.takeWhile isWordChar
  if w.isEmpty then none
  else
    let r1 := title.drop w.length
    if ciPrefixB (str " of the ") r1 then
      let o := (r1.drop 8).takeWhile isWordChar
      if startsWithDigit o && 2 ≤ o.length then
        let r3 := (r1.drop 8).drop o.length
        if ciPrefixB (str " week after ") r3 then
          let f := (r3.drop 12).takeWhile (fun c => !(c == '\n'))
          if f.isEmpty then none else some (w, o, f)
        else none
      else none
    else none

/-- bot.py:289-300: the day-title fallback — rewrite
`"<Weekday> of the <Ordinal> week after <Feast>"` as
`"the <Ordinal> <Weekday> after <Feast>"`; else `"the "`-prefix a title
starting with a digit; else the title verbatim; `""` with no titles. -/
def dayTitleFallback : List (List Char) → List Char
  | [] => []
  | title :: _ =>
    match dayTitleMatch title with
    | some (weekday, ordinal, feast) =>
        str "the " ++ ordinal ++ str " " ++ weekday ++ str " after " ++ feast
    | none => if startsWithDigit title then str "the " ++ title else title

/-- bot.py:268-300: steps 3 and 4 of the chain — resolve a generic or
empty abbreviation through the orthocal description, falling back to the
day titles. -/
def occasionFallback (oca_ref : List Char) (commemorations : List (List Char))
    (idx : List (List Char × OrthocalReading)) (day_titles : List (List Char)) :
    List Char :=
  if !(orthocalDesc oca_ref idx).isEmpty then
    if startsWithDigit (orthocalDesc oca_ref idx) then
      str "the " ++ orthocalDesc oca_ref idx
    else
      match search_commemorations (pyStrip (stripTitlePrefix (orthocalDesc oca_ref idx)))
          commemorations with
      | some m => theTransform m
      | none => orthocalDesc oca_ref idx
  else dayTitleFallback day_titles

/-- `build_occasion` (bot.py:222-300). -/
def build_occasion (occasion_abbrev oca_ref : List Char)
    (commemorations : List (List Char)) (idx : List (List Char × OrthocalReading))
    (day_titles : List (List Char)) : List Char :=
  if !(preprocessAbbrev occasion_abbrev).isEmpty &&
      startsWithDigit (preprocessAbbrev occasion_abbrev) then
    str "the " ++ preprocessAbbrev occasion_abbrev
  else if !(preprocessAbbrev occasion_abbrev).isEmpty &&
      !genericToken ((preprocessAbbrev occasion_abbrev).map Char.toLower) then
    match search_commemorations (pyStrip (stripTitlePrefix (preprocessAbbrev occasion_abbrev)))
        commemorations with
    | some m => theTransform m
    | none => preprocessAbbrev occasion_abbrev
  else occasionFallback oca_ref commemorations idx day_titles

/-! ## Markdown assembly (`format_markdown`, bot.py:307-364) -/

/-- Module constant `WEEKDAYS` (bot.py:35); indexed by Python
`date.weekday()` (0 = Monday … 6 = Sunday). -/
def WEEKDAYS : List (List Char) :=
  [str "Monday", str "Tuesday", str "Wednesday", str "Thursday",
   str "Friday", str "Saturday", str "Sunday"]

/-- Module constant `MONTHS` (bot.py:31-34). -/
def MONTHS : List (List Char) :=
  [str "January", str "February", str "March", str "April", str "May",
   str "June", str "July", str "August", str "September", str "October",
   str "November", str "December"]

/-- Module constant `SUNDAY_ONLY_TYPES` (bot.py:29). -/
def SUNDAY_ONLY_TYPES : List (List Char) := [str "Matins Gospel"]

/-- Module constant `HASHTAGS` (bot.py:37). -/
def HASHTAGS : List Char :=
  str "#Christian #OrthodoxChristian #Bible #Scripture #Orthodox #Orthostr #Biblestr"

/-- One element of the `readings` list assembled in `main`
(bot.py:412-418): index, reference, type, occasion abbreviation and verse
text, the last four already defaulted to strings. -/
structure Reading where
  index : Nat
  ref : List Char
  type : List Char
  occasion : List Char
  text : List Char
deriving DecidableEq

/-- A Python `datetime.date` as `format_markdown` consumes it: the
calendar fields plus the value of `date.weekday()` (0 = Monday …
6 = Sunday), which the `date` type keeps consistent with the fields. -/
structure PyDate where
  year : Nat
  month : Nat
  day : Nat
  weekday : Nat
deriving DecidableEq

/-- Python `f"{n:02d}"` for the month/day fields. -/
def pad2 (n : Nat) : List Char :=
  if n < 10 then '0' :: (Nat.repr n).data else (Nat.repr n).data

/-- Decimal rendering of a number in an f-string. -/
def natStr (n : Nat) : List Char := (Nat.repr n).data

/-- `f"{today.year}/{today.month:02d}/{today.day:02d}"` (bot.py:311). -/
def datePath (today : PyDate) : List Char :=
  natStr today.year ++ str "/" ++ pad2 today.month ++ str "/" ++ pad2 today.day

/-- The `included` filter of `format_markdown` (bot.py:322-327): keep the
readings with a truthy type, dropping Sunday-only types when the date is
not a Sunday. -/
def includedReadings (today : PyDate) (readings : List Reading) : List Reading :=
  readings.filter fun r =>
    !r.type.isEmpty && !(SUNDAY_ONLY_TYPES.contains r.type && !(today.weekday == 6))

/-- The heading text of one reading (bot.py:338-352): Matins Gospel
headings carry no occasion; otherwise the resolved occasion is inserted
after `reading for` when non-empty. -/
def readingHeading (r : Reading) (commemorations : List (List Char))
    (idx : List (List Char × OrthocalReading)) (day_titles : List (List Char)) :
    List Char :=
  if r.type == str "Matins Gospel" then
    str "Matins Gospel reading (" ++ r.ref ++ str ")"
  else
    if !(build_occasion r.occasion r.ref commemorations idx day_titles).isEmpty then
      r.type ++ str " reading for " ++
        build_occasion r.occasion r.ref commemorations idx day_titles ++
        str " (" ++ r.ref ++ str ")"
    else r.type ++ str " reading (" ++ r.ref ++ str ")"

/-- The lines emitted for one included reading (bot.py:335-359). -/
def renderReading (today : PyDate) (commemorations : List (List Char))
    (idx : List (List Char × OrthocalReading)) (day_titles : List (List Char))
    (r : Reading) : List (List Char) :=
  [str "## [" ++ readingHeading r commemorations idx day_titles ++ str "](" ++
     str "oca.org/readings/daily/" ++ datePath today ++ str "/" ++ natStr r.index ++
     str ")",
   []] ++
  (if !r.text.isEmpty then [str "> " ++ r.text, []] else [])

/-- `format_markdown` (bot.py:307-364), returning the list of lines that
`"\n".join` would be applied to. -/
def format_markdown (today : PyDate) (readings : List Reading)
    (commemorations : List (List Char)) (idx : List (List Char × OrthocalReading))
    (day_titles : List (List Char)) : List (List Char) :=
  [str "# [Scripture Readings for " ++ WEEKDAYS.getD today.weekday [] ++ str ", " ++
     pad2 today.day ++ str " " ++ MONTHS.getD (today.month - 1) [] ++ str " " ++
     natStr today.year ++ str " (OCA)](" ++ str "oca.org/readings/daily/" ++
     datePath today ++ str ")",
   []] ++
  (if (includedReadings today readings).isEmpty then
    [str "*No readings found for this date.*", []]
   else
    (includedReadings today readings).flatMap
      (renderReading today commemorations idx day_titles)) ++
  [HASHTAGS, []]

/-! ## Helper lemmas -/

/-- Character equality is code-point equality. -/
theorem char_beq_toNat (c d : Char) : (c == d) = (c.toNat == d.toNat) := by
  by_cases h : c = d
  · subst h; simp
  · have hn : c.toNat ≠ d.toNat := fun hn => h (char_toNat_inj hn)
    simp [h, hn]

/-- `wordOrHyphen` expressed purely on code points. -/
theorem wordOrHyphen_toNat (c : Char) :
    wordOrHyphen c =
      ((48 ≤ c.toNat && c.toNat ≤ 57) || (65 ≤ c.toNat && c.toNat ≤ 90) ||
        (97 ≤ c.toNat && c.toNat ≤ 122) || c.toNat == 95 || c.toNat == 45) := by
  unfold wordOrHyphen isWordChar
  rw [char_beq_toNat c '_', char_beq_toNat c '-']
  simp [Bool.or_assoc]

/-- Lowercasing preserves the `[\w-]` character class. -/
theorem wordOrHyphen_toLower {c : Char} (h : wordOrHyphen c = true) :
    wordOrHyphen c.toLower = true := by
  rw [wordOrHyphen_toNat] at h ⊢
  rw [toLower_toNat]
  simp only [Bool.or_eq_true, Bool.and_eq_true, decide_eq_true_eq, beq_iff_eq] at h ⊢
  split <;> omega

/-- A lower-cased `[\w-]` character is never a space. -/
theorem wordOrHyphen_toLower_ne_space {c : Char} (h : wordOrHyphen c = true) :
    c.toLower.toLower.toNat ≠ 32 := by
  rw [toLower_toLower, toLower_toNat]
  rw [wordOrHyphen_toNat] at h
  simp only [Bool.or_eq_true, Bool.and_eq_true, decide_eq_true_eq, beq_iff_eq] at h
  split <;> omega

/-- A successful case-insensitive prefix test decomposes the string. -/
theorem ciPrefixB_exists :
    ∀ pat l, ciPrefixB pat l = true →
      ∃ l1 l2, l = l1 ++ l2 ∧ l1.map Char.toLower = pat.map Char.toLower
  | [], l, _ => ⟨[], l, rfl, rfl⟩
  | _ :: _, [], h => by simp [ciPrefixB] at h
  | a :: as, b :: bs, h => by
    unfold ciPrefixB at h
    simp only [Bool.and_eq_true] at h
    obtain ⟨h1, h2⟩ := h
    obtain ⟨l1, l2, hsplit, hm⟩ := ciPrefixB_exists as bs h2
    exact ⟨b :: l1, l2, by simp [hsplit], by simp [hm, (beq_iff_eq.mp h1).symm]⟩

/-- Every character of `norm r` lower-cases to a non-space. -/
theorem mem_norm_toLower_ne_space {r : List Char} {b : Char} (hb : b ∈ norm r) :
    b.toLower.toNat ≠ 32 := by
  unfold norm at hb
  obtain ⟨c, hc, rfl⟩ := List.mem_map.mp hb
  exact wordOrHyphen_toLower_ne_space (List.mem_filter.mp hc).2

/-- `norm` output never begins with the composite prefix (it contains no
space character). -/
theorem stripComposite_norm (r : List Char) : stripComposite (norm r) = norm r := by
  unfold stripComposite
  rw [if_neg]
  intro h
  obtain ⟨l1, l2, hsplit, hm⟩ := ciPrefixB_exists (str "Composite ") (norm r) h
  have hsp : (' ' : Char).toLower ∈ l1.map Char.toLower := by
    rw [hm]; simp [str]
  obtain ⟨b, hb, hbl⟩ := List.mem_map.mp hsp
  have hbn : b ∈ norm r := by rw [hsplit]; exact List.mem_append_left _ hb
  exact mem_norm_toLower_ne_space hbn (by rw [hbl]; rfl)

/-- Prefix through a shared left factor. -/
theorem isPrefixOf_append_left (a b c : List Char) :
    (a ++ b).isPrefixOf (a ++ c) = b.isPrefixOf c := by
  induction a with
  | nil => rfl
  | cons x xs ih => simp [List.isPrefixOf, ih]

/-- Being a prefix is preserved when the prefix is shortened. -/
theorem isPrefixOf_of_append :
    ∀ p q l : List Char, (p ++ q).isPrefixOf l = true → p.isPrefixOf l = true
  | [], _, _, _ => by simp [List.isPrefixOf]
  | _ :: _, _, [], h => by simp [List.isPrefixOf] at h
  | x :: xs, q, y :: ys, h => by
    simp only [List.cons_append, List.isPrefixOf, Bool.and_eq_true] at h ⊢
    exact ⟨h.1, isPrefixOf_of_append xs q ys h.2⟩

/-- A generic token never begins with a digit (its first character lowers
to `s` or `t`). -/
theorem generic_not_digit {l : List Char}
    (h : genericToken (l.map Char.toLower) = true) :
    (!l.isEmpty && startsWithDigit l) = false := by
  cases l with
  | nil => rfl
  | cons c cs =>
    have hc : c.toLower.toNat = 115 ∨ c.toLower.toNat = 116 := by
      unfold genericToken at h
      simp only [Bool.or_eq_true, beq_iff_eq, List.map_cons, str] at h
      rcases h with (h | h) | h
      · left
        have := List.head_eq_of_cons_eq h
        rw [this]; rfl
      · right
        have := List.head_eq_of_cons_eq h
        rw [this]; rfl
      · exact absurd h (by simp)
    have hd : digitB c = false := by
      unfold digitB
      rw [toLower_toNat] at hc
      simp only [Bool.and_eq_false_iff, decide_eq_false_iff_not, not_le]
      by_cases hu : 65 ≤ c.toNat ∧ c.toNat ≤ 90
      · rw [if_pos hu] at hc; omega
      · rw [if_neg hu] at hc; omega
    simp [startsWithDigit, hd]

/-! ## Claim theorems -/

/-- C8 counterexample: the claim states that `_norm(None)` returns `""`
rather than failing; in fact `re.sub` raises a `TypeError` on `None`, so
the modelled call errors instead of returning the empty string. -/
theorem norm_none_fails : normOpt none = Except.error () ∧
    normOpt none ≠ Except.ok [] := by
  constructor
  · rfl
  · intro h
    simp [normOpt] at h

/-- C8 (amended): `_norm` is pure and total on strings and maps `""` to
`""`; applied to `None` it raises a `TypeError` (modelled as an error
value) instead of returning `""` — its callers always guard with
truthiness checks, so `None` never reaches it. -/
theorem norm_empty_and_none :
    normOpt (some []) = Except.ok [] ∧ norm [] = [] ∧
      normOpt none = Except.error () := ⟨rfl, rfl, rfl⟩

/-- C10: `_norm` is idempotent — its output consists only of lower-case
word characters and hyphens, which a second application leaves
unchanged. -/
theorem norm_idempotent (r : List Char) : norm (norm r) = norm r := by
  show ((stripComposite (norm r)).filter wordOrHyphen).map Char.toLower = norm r
  rw [stripComposite_norm]
  have hfilter : (norm r).filter wordOrHyphen = norm r := by
    apply List.filter_eq_self.mpr
    intro b hb
    unfold norm at hb
    obtain ⟨c, hc, rfl⟩ := List.mem_map.mp hb
    exact wordOrHyphen_toLower (List.mem_filter.mp hc).2
  rw [hfilter]
  show (((stripComposite r).filter wordOrHyphen).map Char.toLower).map Char.toLower
      = norm r
  rw [List.map_map]
  exact List.map_congr_left fun c _ => toLower_toLower c

/-- The first entry satisfying the predicate is found, skipping the
earlier non-matching entries. -/
theorem find?_first {p : List Char → Bool} :
    ∀ (pre : List (List Char)) (e : List Char) (post : List (List Char)),
      (∀ x ∈ pre, p x = false) → p e = true →
      List.find? p (pre ++ e :: post) = some e
  | [], e, post, _, he => by simp [List.find?_cons, he]
  | a :: as, e, post, hpre, he => by
    have ha : p a = false := hpre a (by simp)
    simp only [List.cons_append, List.find?_cons, ha]
    exact find?_first as e post (fun x hx => hpre x (by simp [hx])) he

/-- C2: `_search_commemorations` returns the first entry (in the supplied
order) containing the key as a whole word, case-insensitively and with
the key taken literally; it returns `None` for an empty key, an empty
list, or when no entry matches; and on `["Holy Anna the Prophetess"]` the
key `"Ann"` finds nothing while `"Anna"` finds the entry. -/
theorem search_commemorations_spec :
    (∀ comms, search_commemorations [] comms = none) ∧
    (∀ key, search_commemorations key [] = none) ∧
    (∀ key comms, (∀ e ∈ comms, hasWholeWord key e = false) →
        search_commemorations key comms = none) ∧
    (∀ key pre e post, key ≠ [] → hasWholeWord key e = true →
        (∀ x ∈ pre, hasWholeWord key x = false) →
        search_commemorations key (pre ++ e :: post) = some e) ∧
    search_commemorations (str "Ann") [str "Holy Anna the Prophetess"] = none ∧
    search_commemorations (str "Anna") [str "Holy Anna the Prophetess"] =
      some (str "Holy Anna the Prophetess") := by
  refine ⟨fun comms => rfl, fun key => ?_, fun key comms h => ?_,
    fun key pre e post hk he hpre => ?_, by decide, by decide⟩
  · simp [search_commemorations]
  · unfold search_commemorations
    split
    · rfl
    · exact List.find?_eq_none.mpr fun x hx => by simp [h x hx]
  · unfold search_commemorations
    rw [if_neg]
    · exact find?_first pre e post hpre he
    · simp [hk]

/-- C2 witness: the first whole-word match is returned, later entries and
earlier non-matching entries notwithstanding. -/
theorem search_commemorations_spec_witness :
    search_commemorations (str "Nicholas")
        [str "Holy Anna the Prophetess", str "Saint Nicholas of Myra"] =
      some (str "Saint Nicholas of Myra") :=
  search_commemorations_spec.2.2.2.1 (str "Nicholas")
    [str "Holy Anna the Prophetess"] (str "Saint Nicholas of Myra") []
    (by decide) (by decide) (by decide)

/-- C1: whenever the abbreviation is non-empty and begins with a digit
after whitespace-collapsing and the bare-positional-label check,
`build_occasion` returns `"the "` followed by that (preprocessed)
abbreviation, regardless of the reference, commemorations, alternate
index and day titles. -/
theorem build_occasion_digit_abbrev (a ref : List Char)
    (comms : List (List Char)) (idx : List (List Char × OrthocalReading))
    (titles : List (List Char))
    (h1 : (preprocessAbbrev a).isEmpty = false)
    (h2 : startsWithDigit (preprocessAbbrev a) = true) :
    build_occasion a ref comms idx titles = str "the " ++ preprocessAbbrev a := by
  unfold build_occasion
  rw [if_pos (by rw [h1, h2]; rfl)]

/-- C1 witness: `"30th Thursday after Pentecost"` resolves to
`"the 30th Thursday after Pentecost"` even with non-trivial reference,
commemorations, index and day-title arguments present. -/
theorem build_occasion_digit_abbrev_witness :
    build_occasion (str "30th Thursday after Pentecost") (str "Hebrews 7:26-8:2")
        [str "Saint Innocent, Bishop of Alaska"]
        [(norm (str "Hebrews 7.26-8.2"), ⟨str "St. Innocent"⟩)]
        [str "Thursday of the 30th week after Pentecost"] =
      str "the 30th Thursday after Pentecost" :=
  build_occasion_digit_abbrev _ _ _ _ _ (by decide) (by decide)

/-- `occasionFallback` yields `""` when given no commemorations, no index
and no day titles. -/
theorem occasionFallback_empty (ref : List Char) :
    occasionFallback ref [] [] [] = [] := by
  have hd : orthocalDesc ref [] = [] := by
    unfold orthocalDesc
    split
    · rfl
    · rfl
  unfold occasionFallback
  rw [hd]
  rfl

/-- C4: an abbreviation that is a bare positional label (digits, an
ordinal suffix, whitespace, the word `reading`, case-insensitively) is
treated as empty, so `build_occasion` behaves exactly as with an empty
abbreviation and falls through to the later chain steps; in particular
`"1st reading"` with no other data yields `""`, not `"the 1st reading"`. -/
theorem build_occasion_bare_label :
    (∀ a ref comms idx titles, isBareLabel (wsNormalize a) = true →
        build_occasion a ref comms idx titles =
          build_occasion [] ref comms idx titles) ∧
    (∀ ref, build_occasion (str "1st reading") ref [] [] [] = []) := by
  constructor
  · intro a ref comms idx titles h
    have hp : preprocessAbbrev a = [] := by
      unfold preprocessAbbrev
      cases hw : (wsNormalize a).isEmpty
      · rw [if_pos (by rw [h]; rfl)]
      · rw [List.isEmpty_iff.mp hw] at h
        exact absurd h (by decide)
    have hp0 : preprocessAbbrev ([] : List Char) = [] := rfl
    unfold build_occasion
    rw [hp, hp0]
  · intro ref
    unfold build_occasion
    rw [if_neg (by decide), if_neg (by decide)]
    exact occasionFallback_empty ref

/-- C4 witness: `"1st  reading"` (double space, as OCA sometimes emits)
is neutralized and resolves exactly as the empty abbreviation; with no
other data the result is `""`. -/
theorem build_occasion_bare_label_witness :
    build_occasion (str "1st  reading") (str "ref") [str "c"] [] [str "t"] =
        build_occasion [] (str "ref") [str "c"] [] [str "t"] ∧
      build_occasion (str "1st reading") (str "ref") [] [] [] = [] :=
  ⟨build_occasion_bare_label.1 (str "1st  reading") (str "ref") [str "c"] []
      [str "t"] (by decide),
    build_occasion_bare_label.2 (str "ref")⟩

/-- C6: a non-empty, non-generic abbreviation that does not begin with a
digit (a digit-initial abbreviation is claimed by the higher-priority
weekday-ordinal step) and whose title-stripped key has no whole-word
match in the commemorations is returned as-is — the whitespace-normalized
abbreviation, untouched by the title stripping — and in particular it is
never discarded or replaced by the empty string. -/
theorem build_occasion_unmatched_abbrev (a ref : List Char)
    (comms : List (List Char)) (idx : List (List Char × OrthocalReading))
    (titles : List (List Char))
    (h1 : (preprocessAbbrev a).isEmpty = false)
    (h2 : startsWithDigit (preprocessAbbrev a) = false)
    (h3 : genericToken ((preprocessAbbrev a).map Char.toLower) = false)
    (h4 : search_commemorations (pyStrip (stripTitlePrefix (preprocessAbbrev a)))
        comms = none) :
    build_occasion a ref comms idx titles = preprocessAbbrev a ∧
      preprocessAbbrev a ≠ [] := by
  constructor
  · unfold build_occasion
    rw [if_neg (by rw [h1, h2]; decide), if_pos (by rw [h1, h3]; rfl), h4]
  · intro hk
    rw [hk] at h1
    exact absurd h1 (by decide)

/-- C6 witness: `"Nativity"` finds no whole-word match in the listed
commemorations and is returned unchanged rather than discarded. -/
theorem build_occasion_unmatched_abbrev_witness :
    build_occasion (str "Nativity") (str "r") [str "The Circumcision of our Lord"]
        [] [] = str "Nativity" ∧ str "Nativity" ≠ ([] : List Char) :=
  build_occasion_unmatched_abbrev (str "Nativity") (str "r")
    [str "The Circumcision of our Lord"] [] [] (by decide) (by decide)
    (by decide) (by decide)

/-- C3: for the generic abbreviation `"Saint"`, when the normalized
reference resolves through the alternate index to the description
`"St. Innocent"` and the commemorations contain
`"Saint Innocent, Bishop of Alaska"`, `build_occasion` returns that full
commemoration without a `"the "` prefix, because it begins with the word
`Saint`. -/
theorem build_occasion_generic_saint (ref : List Char)
    (idx : List (List Char × OrthocalReading)) (entry : OrthocalReading)
    (h1 : ref.isEmpty = false)
    (h2 : dictGet (norm ref) idx = some entry)
    (h3 : pyStrip entry.description = str "St. Innocent") :
    build_occasion (str "Saint") ref [str "Saint Innocent, Bishop of Alaska"]
        idx [] = str "Saint Innocent, Bishop of Alaska" := by
  have hd : orthocalDesc ref idx = str "St. Innocent" := by
    unfold orthocalDesc
    rw [if_neg (by rw [h1]; decide), h2]
    exact h3
  unfold build_occasion
  rw [if_neg (by decide), if_neg (by decide)]
  unfold occasionFallback
  rw [hd]
  decide

/-- C3 witness: concrete index and reference, with the two sources using
different chapter separators (`.` vs `:`), still joined by `_norm`. -/
theorem build_occasion_generic_saint_witness :
    build_occasion (str "Saint") (str "Hebrews 7:26-8:2")
        [str "Saint Innocent, Bishop of Alaska"]
        [(norm (str "Hebrews 7.26-8.2"), ⟨str "St. Innocent"⟩)] [] =
      str "Saint Innocent, Bishop of Alaska" :=
  build_occasion_generic_saint (str "Hebrews 7:26-8:2")
    [(norm (str "Hebrews 7.26-8.2"), ⟨str "St. Innocent"⟩)]
    ⟨str "St. Innocent"⟩ (by decide) (by decide) (by decide)

/-- C5: when the abbreviation is empty or generic and the alternate
description is empty, a first day title of the shape
`"<Weekday> of the <Ordinal> week after <Feast>"` (case-insensitively) is
re-rendered as `"the <Ordinal> <Weekday> after <Feast>"`. -/
theorem build_occasion_day_title (a ref : List Char)
    (comms : List (List Char)) (idx : List (List Char × OrthocalReading))
    (t : List Char) (rest : List (List Char)) (w o f : List Char)
    (h1 : genericToken ((preprocessAbbrev a).map Char.toLower) = true)
    (h2 : orthocalDesc ref idx = [])
    (h3 : dayTitleMatch t = some (w, o, f)) :
    build_occasion a ref comms idx (t :: rest) =
      str "the " ++ o ++ str " " ++ w ++ str " after " ++ f := by
  have hc1 := generic_not_digit h1
  unfold build_occasion
  rw [if_neg (by simp [hc1]), if_neg (by rw [h1]; simp)]
  unfold occasionFallback
  rw [h2]
  show dayTitleFallback (t :: rest) = _
  simp only [dayTitleFallback, h3]

/-- C5 witness: the day title
`"Thursday of the 30th week after Pentecost"` with no other data resolves
to `"the 30th Thursday after Pentecost"`. -/
theorem build_occasion_day_title_witness :
    build_occasion [] [] [] [] [str "Thursday of the 30th week after Pentecost"] =
      str "the 30th Thursday after Pentecost" :=
  build_occasion_day_title [] [] [] []
    (str "Thursday of the 30th week after Pentecost") []
    (str "Thursday") (str "30th") (str "Pentecost")
    (by decide) (by decide) (by decide)

/-- C7 counterexample: the leading `"The "` → `"the "` normalization is
NOT case-insensitive — `re.sub(r"^The\s+", "the ", …)` carries no
`re.IGNORECASE` flag — so a commemoration beginning `"THE "` is left
unrewritten and then `"the "`-prefixed, yielding
`"the THE Circumcision of our Lord"` where a case-insensitive rewrite
would yield `"the Circumcision of our Lord"`. -/
theorem subThe_case_sensitive_counterexample :
    build_occasion (str "Circumcision") [] [str "THE Circumcision of our Lord"]
        [] [] = str "the THE Circumcision of our Lord" ∧
      subThe (str "THE Circumcision of our Lord") =
        str "THE Circumcision of our Lord" ∧
      subThe (str "The Circumcision of our Lord") =
        str "the Circumcision of our Lord" := by decide

/-- C7 (amended): every regex-style match in the resolution chain is
case-insensitive except the leading `"The "` → `"the "` rewrite, which
matches the prefix case-sensitively (only the exact capitalization
`"The "`); the prepend step adds `"the "` only when the string does not
already start with `"the "`, so whenever the rewritten match does not
begin with `"the "` the transformed result never begins with
`"the the "`. -/
theorem theTransform_no_double_prefix (m : List Char)
    (h : (str "the ").isPrefixOf (subThe m) = false) :
    (str "the the ").isPrefixOf (theTransform m) = false := by
  unfold theTransform
  rw [h]
  cases hs : startsWithSaintWord (subThe m)
  · rw [if_neg (by simp)]
    have : str "the the " = str "the " ++ str "the " := rfl
    rw [this, isPrefixOf_append_left]
    exact h
  · rw [if_pos (by simp)]
    cases hp : (str "the the ").isPrefixOf (subThe m)
    · rfl
    · have : (str "the ").isPrefixOf (subThe m) = true :=
        isPrefixOf_of_append (str "the ") (str "the ") (subThe m)
          (by exact hp)
      rw [this] at h
      exact absurd h (by decide)

/-- C7 amended-claim witness: a matched commemoration not starting with
`"the "` after the rewrite never comes out double-prefixed. -/
theorem theTransform_no_double_prefix_witness :
    (str "the the ").isPrefixOf
        (theTransform (str "Repose of Venerable Seraphim")) = false :=
  theTransform_no_double_prefix (str "Repose of Venerable Seraphim") (by decide)

/-- C9: a reading typed `"Matins Gospel"` is dropped by the assembler's
filter on any day other than Sunday (`date.weekday() ≠ 6`); on a Sunday
it survives the filter, its heading is exactly
`"Matins Gospel reading (<reference>)"` with no occasion clause, and the
corresponding heading line appears in the assembled document. -/
theorem matins_gospel_sunday_only (today : PyDate) (readings : List Reading)
    (comms : List (List Char)) (idx : List (List Char × OrthocalReading))
    (titles : List (List Char)) (r : Reading)
    (hr : r ∈ readings) (ht : r.type = str "Matins Gospel") :
    (today.weekday ≠ 6 → r ∉ includedReadings today readings) ∧
    (today.weekday = 6 → r ∈ includedReadings today readings ∧
      readingHeading r comms idx titles =
        str "Matins Gospel reading (" ++ r.ref ++ str ")" ∧
      str "## [" ++ (str "Matins Gospel reading (" ++ r.ref ++ str ")") ++
          str "](" ++ str "oca.org/readings/daily/" ++ datePath today ++
          str "/" ++ natStr r.index ++ str ")" ∈
        format_markdown today readings comms idx titles) := by
  have hhead : readingHeading r comms idx titles =
      str "Matins Gospel reading (" ++ r.ref ++ str ")" := by
    unfold readingHeading
    rw [if_pos (by rw [ht]; rfl)]
  constructor
  · intro hw hmem
    have hp := (List.mem_filter.mp hmem).2
    rw [ht] at hp
    have hw6 : (today.weekday == 6) = false := by
      cases hb : today.weekday == 6
      · rfl
      · exact absurd (beq_iff_eq.mp hb) hw
    rw [hw6] at hp
    exact absurd hp (by decide)
  · intro hw
    have hmem : r ∈ includedReadings today readings := by
      apply List.mem_filter.mpr
      refine ⟨hr, ?_⟩
      rw [ht, hw]
      decide
    refine ⟨hmem, hhead, ?_⟩
    unfold format_markdown
    rw [if_neg (by simp [List.isEmpty_iff, List.ne_nil_of_mem hmem])]
    apply List.mem_append_left
    apply List.mem_append_right
    apply List.mem_flatMap.mpr
    refine ⟨r, hmem, ?_⟩
    unfold renderReading
    rw [hhead]
    exact List.mem_cons_self _ _

/-- A sample Matins Gospel reading for concrete instantiation. -/
def sampleMatins : Reading :=
  ⟨1, str "John 21:1-14", str "Matins Gospel", [], str "verse text"⟩

/-- Thursday 2026-01-01 (`date.weekday() = 3`). -/
def sampleThursday : PyDate := ⟨2026, 1, 1, 3⟩

/-- Sunday 2026-01-04 (`date.weekday() = 6`). -/
def sampleSunday : PyDate := ⟨2026, 1, 4, 6⟩

/-- C9 witness: the same Matins Gospel reading is excluded on a Thursday
and included on a Sunday with the occasion-free heading, whose line
appears in the assembled document. -/
theorem matins_gospel_sunday_only_witness :
    sampleMatins ∉ includedReadings sampleThursday [sampleMatins] ∧
    (sampleMatins ∈ includedReadings sampleSunday [sampleMatins] ∧
      readingHeading sampleMatins [] [] [] =
        str "Matins Gospel reading (" ++ sampleMatins.ref ++ str ")" ∧
      str "## [" ++ (str "Matins Gospel reading (" ++ sampleMatins.ref ++ str ")") ++
          str "](" ++ str "oca.org/readings/daily/" ++ datePath sampleSunday ++
          str "/" ++ natStr sampleMatins.index ++ str ")" ∈
        format_markdown sampleSunday [sampleMatins] [] [] []) :=
  ⟨(matins_gospel_sunday_only sampleThursday [sampleMatins] [] [] [] sampleMatins
      (by simp) rfl).1 (by decide),
    (matins_gospel_sunday_only sampleSunday [sampleMatins] [] [] [] sampleMatins
      (by simp) rfl).2 rfl⟩

end DailyReadingsBot
